import Mathlib

/-!
Verification of the external-API gateway layer of the cookies-house backend
(`src/services/wechat.ts` and `src/routes/sync.ts`), shallowly embedded in Lean.

JavaScript dynamic values flowing through the extraction pipeline are modelled
by the inductive `Json` below; `JSON.parse` is modelled by a fueled
recursive-descent parser over the JSON grammar (numbers are kept exact as
rationals rather than converted to IEEE floats; no claim concerns numeric
values), and `JSON.stringify`'s string quoting by `escapeChar`.
-/

/-- A JavaScript value produced by `JSON.parse`. -/
inductive Json where
  | null : Json
  | bool : Bool → Json
  | num : Rat → Json
  | str : String → Json
  | arr : List Json → Json
  | obj : List (String × Json) → Json

/-- JavaScript truthiness of a `Json` value (`if (v)`): `null`, `false`, `0`
and the empty string are falsy; arrays and objects are always truthy. -/
def truthy : Json → Bool
  | .null => false
  | .bool b => b
  | .num q => decide (q ≠ 0)
  | .str s => decide (s ≠ "")
  | .arr _ => true
  | .obj _ => true

/-- JavaScript property access `o.k` (`undefined`, i.e. `none`, on non-objects
or absent keys; with duplicate keys `JSON.parse` keeps the last occurrence). -/
def getField : Json → String → Option Json
  | .obj ms, k => ms.foldl (fun acc kv => if kv.1 == k then some kv.2 else acc) none
  | _, _ => none

/-! ### JSON lexical helpers -/

/-- JSON insignificant whitespace (RFC 8259: space, tab, LF, CR). -/
def isJsonWs (c : Char) : Bool := c == ' ' || c == '\t' || c == '\n' || c == '\r'

def skipWs (l : List Char) : List Char := l.dropWhile isJsonWs

/-- Value of one hexadecimal digit, for `\uXXXX` escapes. -/
def hexVal (c : Char) : Option Nat :=
  if c.isDigit then some (c.toNat - 48)
  else if 'a' ≤ c ∧ c ≤ 'f' then some (c.toNat - 87)
  else if 'A' ≤ c ∧ c ≤ 'F' then some (c.toNat - 55)
  else none

def digitsToNat (ds : List Char) : Nat :=
  ds.foldl (fun a c => a * 10 + (c.toNat - 48)) 0

/-- Prepend a decoded character to the result of parsing the rest of a string
literal. -/
def consChar (ch : Char) : Option (List Char × List Char) → Option (List Char × List Char)
  | some (s, rest) => some (ch :: s, rest)
  | none => none

/-- Parse the body of a JSON string literal (the opening quote already
consumed), returning the decoded characters and the input after the closing
quote.  Mirrors `JSON.parse`: the named escapes, `\uXXXX`, and literal
characters; raw control characters are rejected. -/
def parseStringBody : List Char → Option (List Char × List Char)
  | [] => none
  | c :: rest =>
    if c = '"' then some ([], rest)
    else if c = '\\' then
      match rest with
      | [] => none
      | e :: r =>
        if e = '"' then consChar '"' (parseStringBody r)
        else if e = '\\' then consChar '\\' (parseStringBody r)
        else if e = '/' then consChar '/' (parseStringBody r)
        else if e = 'b' then consChar '\x08' (parseStringBody r)
        else if e = 'f' then consChar '\x0C' (parseStringBody r)
        else if e = 'n' then consChar '\n' (parseStringBody r)
        else if e = 'r' then consChar '\r' (parseStringBody r)
        else if e = 't' then consChar '\t' (parseStringBody r)
        else if e = 'u' then
          match r with
          | h1 :: h2 :: h3 :: h4 :: r2 =>
            match hexVal h1, hexVal h2, hexVal h3, hexVal h4 with
            | some a, some b, some c2, some d =>
              consChar (Char.ofNat (((a * 16 + b) * 16 + c2) * 16 + d)) (parseStringBody r2)
            | _, _, _, _ => none
          | _ => none
        else none
    else if c.toNat < 32 then none
    else consChar c (parseStringBody rest)

/-- Optional fraction part `.digits` of a JSON number. -/
def parseFrac : List Char → Option (List Char × List Char)
  | '.' :: r =>
    let ds := r.takeWhile (·.isDigit)
    if ds = [] then none else some (ds, r.dropWhile (·.isDigit))
  | l => some ([], l)

def parseExpTail (r : List Char) : Option (Int × List Char) :=
  let (sgn, r1) : Int × List Char :=
    match r with
    | '+' :: rr => (1, rr)
    | '-' :: rr => (-1, rr)
    | _ => (1, r)
  let ds := r1.takeWhile (·.isDigit)
  if ds = [] then none else some (sgn * (digitsToNat ds : Int), r1.dropWhile (·.isDigit))

/-- Optional exponent part `e±digits` of a JSON number. -/
def parseExp : List Char → Option (Int × List Char)
  | 'e' :: r => parseExpTail r
  | 'E' :: r => parseExpTail r
  | l => some (0, l)

/-- Parse a JSON number, kept exact as a rational. -/
def parseNumber (l : List Char) : Option (Rat × List Char) :=
  let (neg, l1) : Bool × List Char :=
    match l with
    | '-' :: r => (true, r)
    | _ => (false, l)
  let ip := l1.takeWhile (·.isDigit)
  let l2 := l1.dropWhile (·.isDigit)
  if ip = [] then none
  else if 1 < ip.length ∧ ip.head? = some '0' then none
  else
    match parseFrac l2 with
    | none => none
    | some (fp, l3) =>
      match parseExp l3 with
      | none => none
      | some (e, l4) =>
        let mag : Rat :=
          ((digitsToNat ip : Rat) + (digitsToNat fp : Rat) / (10 : Rat) ^ fp.length)
            * (10 : Rat) ^ e
        some (if neg then -mag else mag, l4)

mutual

/-- Parse one JSON value (leading whitespace allowed).  The fuel decreases on
every recursive call; `Json.parse` supplies `length + 1`, which is enough
because at least one character is consumed before each recursive call. -/
def parseValue : Nat → List Char → Option (Json × List Char)
  | 0, _ => none
  | f + 1, l =>
    match skipWs l with
    | [] => none
    | c :: r =>
      if c = '"' then
        match parseStringBody r with
        | some (s, rest) => some (.str (String.mk s), rest)
        | none => none
      else if c = '{' then
        match skipWs r with
        | '}' :: r2 => some (.obj [], r2)
        | r' => parseMembers f r' []
      else if c = '[' then
        match skipWs r with
        | ']' :: r2 => some (.arr [], r2)
        | r' => parseElems f r' []
      else if c = 't' then
        match r with
        | 'r' :: 'u' :: 'e' :: r2 => some (.bool true, r2)
        | _ => none
      else if c = 'f' then
        match r with
        | 'a' :: 'l' :: 's' :: 'e' :: r2 => some (.bool false, r2)
        | _ => none
      else if c = 'n' then
        match r with
        | 'u' :: 'l' :: 'l' :: r2 => some (.null, r2)
        | _ => none
      else
        match parseNumber (c :: r) with
        | some (q, rest) => some (.num q, rest)
        | none => none

/-- Parse the members of a JSON object after `{` (non-empty member list; the
accumulator holds earlier members in reverse). -/
def parseMembers : Nat → List Char → List (String × Json) → Option (Json × List Char)
  | 0, _, _ => none
  | f + 1, l, acc =>
    match l with
    | '"' :: r =>
      match parseStringBody r with
      | some (key, r1) =>
        match skipWs r1 with
        | ':' :: r2 =>
          match parseValue f r2 with
          | some (v, r3) =>
            match skipWs r3 with
            | ',' :: r4 => parseMembers f (skipWs r4) ((String.mk key, v) :: acc)
            | '}' :: r4 => some (.obj (((String.mk key, v) :: acc).reverse), r4)
            | _ => none
          | none => none
        | _ => none
      | none => none
    | _ => none

/-- Parse the elements of a JSON array after `[` (non-empty element list). -/
def parseElems : Nat → List Char → List Json → Option (Json × List Char)
  | 0, _, _ => none
  | f + 1, l, acc =>
    match parseValue f l with
    | some (v, r) =>
      match skipWs r with
      | ',' :: r2 => parseElems f (skipWs r2) (v :: acc)
      | ']' :: r2 => some (.arr ((v :: acc).reverse), r2)
      | _ => none
    | none => none

end

/-- `JSON.parse`: parse a whole string as one JSON value (trailing whitespace
allowed, anything else rejected). -/
def Json.parse (s : String) : Option Json :=
  match parseValue (s.length + 1) s.data with
  | some (j, rest) => if skipWs rest = [] then some j else none
  | none => none

/-! ### JavaScript string helpers -/

/-- JavaScript whitespace (the common members of the `\s` class / `trim` set). -/
def isJsSpace (c : Char) : Bool :=
  c == ' ' || c == '\t' || c == '\n' || c == '\r' || c == '\x0b' || c == '\x0c' ||
    c == ' ' || c == ' ' || c == ' ' || c.toNat == 0xFEFF

/-- `String.prototype.trim`. -/
def jsTrim (s : String) : String :=
  String.mk (((s.data.dropWhile isJsSpace).reverse.dropWhile isJsSpace).reverse)

/-- `raw.match(/\x7b[\s\S]*\x7d/)` (with `\x7b`/`\x7d` the brace characters):
the greedy span from the first opening brace to the last closing brace,
provided the closing brace comes later. -/
def firstBraceSpan (s : String) : Option String :=
  match s.data.findIdx? (fun c => c = '{') with
  | none => none
  | some i =>
    match s.data.reverse.findIdx? (fun c => c = '}') with
    | none => none
    | some k =>
      let j := s.data.length - 1 - k
      if i < j then some (String.mk ((s.data.drop i).take (j - i + 1))) else none

/-! ### `JSON.stringify` string quoting (for round-trip statements) -/

def hexDigitChar (n : Nat) : Char :=
  if n < 10 then Char.ofNat (48 + n) else Char.ofNat (87 + n)

/-- How `JSON.stringify` quotes one character: the two mandatory escapes, the
named control escapes, `\u00XX` for the remaining control characters, and
every other character literally. -/
def escapeChar (c : Char) : List Char :=
  if c = '"' then ['\\', '"']
  else if c = '\\' then ['\\', '\\']
  else if c = '\n' then ['\\', 'n']
  else if c = '\r' then ['\\', 'r']
  else if c = '\t' then ['\\', 't']
  else if c = '\x08' then ['\\', 'b']
  else if c = '\x0C' then ['\\', 'f']
  else if c.toNat < 32 then
    ['\\', 'u', '0', '0', hexDigitChar (c.toNat / 16), hexDigitChar (c.toNat % 16)]
  else [c]

def encodeChars : List Char → List Char
  | [] => []
  | c :: cs => escapeChar c ++ encodeChars cs

/-- A quoted JSON string literal. -/
def quoteChars (s : String) : List Char := '"' :: (encodeChars s.data ++ ['"'])

/-- The characters between the braces of
`JSON.stringify({diary: d, keyPoints: k, insights: i})`. -/
def diaryMembersChars (d k i : String) : List Char :=
  quoteChars ("diary") ++ ':' :: (quoteChars d ++ ',' ::
    (quoteChars ("keyPoints") ++ ':' :: (quoteChars k ++ ',' ::
      (quoteChars ("insights") ++ ':' :: quoteChars i))))

/-- `JSON.stringify({diary: d, keyPoints: k, insights: i})`. -/
def serializeDiary (d k i : String) : String :=
  String.mk ('{' :: (diaryMembersChars d k i ++ ['}']))

/-! ### The diary catch-block regular expressions (`sync.ts` lines 259-264) -/

def listStartsWith : List Char → List Char → Bool
  | [], _ => true
  | _ :: _, [] => false
  | p :: ps, c :: cs => p == c && listStartsWith ps cs

def isColon (c : Char) : Bool := c == '：' || c == ':'

/-- Try the alternatives in order at the current position; on a match followed
by a colon, return the input just after the colon. -/
def pickAlt (alts : List (List Char)) (l : List Char) : Option (List Char) :=
  match alts with
  | [] => none
  | a :: as =>
    if listStartsWith a l then
      match l.drop a.length with
      | c :: rest => if isColon c then some rest else pickAlt as l
      | [] => pickAlt as l
    else pickAlt as l

/-- Leftmost match of `(?:alt1|alt2|...)[：:]`, returning the input after the
colon. -/
def findHeader (alts : List (List Char)) : List Char → Option (List Char)
  | [] => none
  | c :: cs =>
    match pickAlt alts (c :: cs) with
    | some rest => some rest
    | none => findHeader alts cs

/-- The lazy capture `([\s\S]*?)` bounded by a lookahead for one of `stops` or
end of string: everything up to the first position where a stop begins. -/
def captureUntil (stops : List (List Char)) : List Char → List Char
  | [] => []
  | c :: cs =>
    if stops.any (fun st => listStartsWith st (c :: cs)) then []
    else c :: captureUntil stops cs

/-- One bounded header capture: find the header, skip `\s*` greedily, capture
lazily up to a stop (or end). -/
def headerCapture (alts stops : List (List Char)) (raw : String) : Option String :=
  match findHeader alts raw.data with
  | some rest => some (String.mk (captureUntil stops (rest.dropWhile isJsSpace)))
  | none => none

def diaryHeadCapture (raw : String) : Option String :=
  headerCapture [("完整日记").data, ("日记").data] [("关键要点").data, ("要点").data] raw

def pointsHeadCapture (raw : String) : Option String :=
  headerCapture [("关键要点").data, ("要点").data] [("洞察").data, ("建议").data] raw

/-- The insights regex captures greedily to end of string. -/
def insightsHeadCapture (raw : String) : Option String :=
  match findHeader [("洞察").data, ("建议").data, ("洞察与建议").data] raw.data with
  | some rest => some (String.mk (rest.dropWhile isJsSpace))
  | none => none

/-! ### POST /api/analysis/diary extraction (`sync.ts` lines 243-275) -/

/-- The mutable `parsed` record of the diary route. -/
structure DiaryParsed where
  diary : Json
  keyPoints : Json
  insights : Json

def initParsed (raw : String) : DiaryParsed := ⟨.str raw, .str (""), .str ("")⟩

/-- `if (obj.f) parsed.f = obj.f` for the three diary fields. -/
def applyJsonFields (o : Json) (p : DiaryParsed) : DiaryParsed where
  diary := match getField o ("diary") with
    | some v => if truthy v then v else p.diary
    | none => p.diary
  keyPoints := match getField o ("keyPoints") with
    | some v => if truthy v then v else p.keyPoints
    | none => p.keyPoints
  insights := match getField o ("insights") with
    | some v => if truthy v then v else p.insights
    | none => p.insights

/-- The catch-block header decomposition: `if (xMatch) parsed.x = xMatch[1].trim()`. -/
def applyHeaderFields (raw : String) (p : DiaryParsed) : DiaryParsed where
  diary := match diaryHeadCapture raw with
    | some cap => .str (jsTrim cap)
    | none => p.diary
  keyPoints := match pointsHeadCapture raw with
    | some cap => .str (jsTrim cap)
    | none => p.keyPoints
  insights := match insightsHeadCapture raw with
    | some cap => .str (jsTrim cap)
    | none => p.insights

/-- The response object `{diary: parsed.diary || raw, keyPoints: parsed.keyPoints || '',
insights: parsed.insights || ''}`. -/
def finalizeDiary (raw : String) (p : DiaryParsed) : Json :=
  Json.obj
    [ (("diary"), if truthy p.diary then p.diary else .str raw),
      (("keyPoints"), if truthy p.keyPoints then p.keyPoints else .str ("")),
      (("insights"), if truthy p.insights then p.insights else .str ("")) ]

/-- The `parsed` record as it stands after the try/catch: default record, then
the brace-span JSON parse with its catch-block header fallback (both only when
a span exists). -/
def diaryParsedOf (raw : String) : DiaryParsed :=
  match firstBraceSpan raw with
  | none => initParsed raw
  | some span =>
    match Json.parse span with
    | some o => applyJsonFields o (initParsed raw)
    | none => applyHeaderFields raw (initParsed raw)

/-- The full diary extraction: the try/catch record pushed through the
truthiness defaults of the response object. -/
def diaryExtract (raw : String) : Json := finalizeDiary raw (diaryParsedOf raw)

/-! ### POST /api/analysis/long-term extraction (`sync.ts` lines 469-488) -/

/-- The synthetic record built when no brace span parses as JSON. -/
def longTermFallback (raw : String) : Json :=
  Json.obj
    [ (("summary"), Json.obj
        [ (("timeRange"), .str ("近期")),
          (("keyPoints"), .arr [.str (String.mk (raw.data.take 200))]) ]),
      (("psychologicalInsight"), Json.obj
        [ (("letter"), .str raw), (("themes"), .arr []) ]),
      (("lifeAdvice"), Json.obj [ (("adviceBlocks"), .arr []) ]),
      (("metrics"), Json.obj []) ]

/-- Long-term extraction: a successfully parsed brace span is returned as-is
(`if (!parsed)` is false, since a parsed brace span is an object, hence
truthy); otherwise the fallback record. -/
def longTermExtract (raw : String) : Json :=
  match firstBraceSpan raw with
  | some span =>
    match Json.parse span with
    | some parsed => parsed
    | none => longTermFallback raw
  | none => longTermFallback raw

/-! ### POST /api/goals/split step shaping (`sync.ts` lines 534-539) -/

/-- Split on `/\r?\n/`: a lone carriage return does not split, one directly
before a line feed is consumed with it. -/
def splitLinesAux (acc : List Char) : List Char → List (List Char)
  | [] => [acc.reverse]
  | '\r' :: '\n' :: rest => acc.reverse :: splitLinesAux [] rest
  | '\n' :: rest => acc.reverse :: splitLinesAux [] rest
  | c :: rest => splitLinesAux (c :: acc) rest

/-- The class `[\d\.\-\)\s]` of leading enumeration-marker characters. -/
def isEnumChar (c : Char) : Bool :=
  c.isDigit || c == '.' || c == '-' || c == ')' || isJsSpace c

/-- `line.replace(/^[\d\.\-\)\s]+/, '')`. -/
def stripEnum (s : String) : String := String.mk (s.data.dropWhile isEnumChar)

/-- The steps shaping: split into lines, trim, drop blank lines, then strip
leading enumeration markers. -/
def splitSteps (stepsText : String) : List String :=
  (((splitLinesAux [] stepsText.data).map (fun l => jsTrim (String.mk l))).filter
      (fun line => line != "")).map stripEnum

/-! ### The credential cache (`wechat.ts` lines 15-44) -/

structure WxConfig where
  appId : String
  secret : String

structure CachedToken where
  token : String
  expireAt : Int

/-- The token endpoint's response envelope (absent fields are `none`). -/
structure TokenResp where
  access_token : Option String := none
  expires_in : Option Int := none
  errcode : Option Int := none
  errmsg : Option String := none

/-- Truthiness of `data.errcode` (absent or `0` is falsy). -/
def truthyErrcode : Option Int → Bool
  | some v => v != 0
  | none => false

/-- `data.errmsg || <fallback>`; the code's fallback template interpolates
`JSON.stringify(data)`, immaterial to every claim, so it is kept abstract. -/
def tokenErrMsg (d : TokenResp) : String :=
  match d.errmsg with
  | some m => if m = "" then ("获取 access_token 失败") else m
  | none => ("获取 access_token 失败")

/-- Outcome of one `getAccessToken` call: the returned/thrown value, the cache
cell afterwards, and whether the token endpoint was called. -/
structure TokenFetch where
  result : Except String String
  cache : Option CachedToken
  networkCalled : Bool

/-- The refresh path of `getAccessToken`: configuration check, then the
network call (`net` is the transport outcome), then the error-envelope check
before the cache assignment. -/
def refreshAccessToken (cfg : WxConfig) (now : Int) (cached : Option CachedToken)
    (net : Except String TokenResp) : TokenFetch :=
  if cfg.appId = "" ∨ cfg.secret = "" then
    ⟨.error ("未配置微信 AppID/Secret"), cached, false⟩
  else
    match net with
    | .error e => ⟨.error e, cached, true⟩
    | .ok d =>
      match d.access_token with
      | some t =>
        if truthyErrcode d.errcode || t == "" then ⟨.error (tokenErrMsg d), cached, true⟩
        else ⟨.ok t, some ⟨t, now + (d.expires_in.getD 7200) * 1000⟩, true⟩
      | none => ⟨.error (tokenErrMsg d), cached, true⟩

/-- `getAccessToken`, with the process-wide mutable cache cell passed
explicitly: serve the cache when more than 60 seconds of lifetime remain,
otherwise refresh. -/
def getAccessToken (cfg : WxConfig) (now : Int) (cached : Option CachedToken)
    (net : Except String TokenResp) : TokenFetch :=
  match cached with
  | some c =>
    if now + 60000 < c.expireAt then ⟨.ok c.token, some c, false⟩
    else refreshAccessToken cfg now cached net
  | none => refreshAccessToken cfg now cached net

/-! ### Concurrent callers of `getAccessToken`

The JavaScript event loop runs each caller's synchronous segments atomically;
the only suspension point is the awaited network call.  A caller is therefore
a two-step process: the cache check (issuing the network request when the
cache is stale), and the response arrival (storing and returning the fresh
token).  A schedule interleaves these steps; `calls` counts network calls. -/

inductive CallerPhase where
  | ready
  | awaiting
  | finished : String → CallerPhase

structure RefreshSt where
  cached : Option CachedToken
  calls : Nat

/-- Advance one caller by one step (the provider's response is a fixed fresh
token with the standard 7200-second lifetime). -/
def stepCaller (now : Int) (st : RefreshSt) : CallerPhase → RefreshSt × CallerPhase
  | .ready =>
    match st.cached with
    | some c =>
      if now + 60000 < c.expireAt then (st, .finished c.token)
      else ({ st with calls := st.calls + 1 }, .awaiting)
    | none => ({ st with calls := st.calls + 1 }, .awaiting)
  | .awaiting =>
    ({ cached := some ⟨("tok"), now + 7200 * 1000⟩, calls := st.calls }, .finished ("tok"))
  | .finished t => (st, .finished t)

def schedStep (now : Int) (s : RefreshSt × List CallerPhase) (i : Nat) :
    RefreshSt × List CallerPhase :=
  match s.2[i]? with
  | some p =>
    let r := stepCaller now s.1 p
    (r.1, s.2.set i r.2)
  | none => s

/-- Run a schedule (a list of caller indices, each advancing that caller one
step). -/
def execSched (now : Int) (sched : List Nat) (s : RefreshSt × List CallerPhase) :
    RefreshSt × List CallerPhase :=
  sched.foldl (schedStep now) s

/-! ### The completion client `callDeepSeek` (`sync.ts` lines 89-124) -/

structure ChatMessage where
  content : Option String := none

structure ChatChoice where
  message : Option ChatMessage := none

structure ChatResp where
  choices : Option (List ChatChoice) := none

/-- `data.choices?.[0]?.message?.content?.toString().trim() ?? ''`. -/
def chatContent (d : ChatResp) : String :=
  match d.choices with
  | some (c :: _) =>
    match c.message with
    | some m =>
      match m.content with
      | some s => jsTrim s
      | none => ""
    | none => ""
  | _ => ""

/-- `callDeepSeek` after the transport step (`resp` is the transport outcome):
extract the first choice's trimmed content and fail on emptiness. -/
def callDeepSeek (resp : Except String ChatResp) : Except String String :=
  match resp with
  | .error e => .error e
  | .ok d =>
    let content := chatContent d
    if content = "" then .error ("DeepSeek 返回内容为空") else .ok content

/-! ### Diary entry ordering (`sync.ts` lines 223-239) -/

structure DiaryEntry where
  text : String
  type : String
  timestamp : Option Int := none

/-- The comparator key `(e.timestamp || 0)`. -/
def entryKey (e : DiaryEntry) : Int := e.timestamp.getD 0

/-- Insert before the first element with a key not smaller, so that existing
equal-key elements keep their place after the inserted one's original
predecessors. -/
def insertByKey {α : Type} (key : α → Int) (x : α) : List α → List α
  | [] => [x]
  | y :: ys => if key y < key x then y :: insertByKey key x ys else x :: y :: ys

/-- Stable insertion sort by an integer key.  `Array.prototype.sort` is
required to be stable (ES2019), and a stable sort by a key is extensionally
unique, so this embeds the code's `entries.sort((a, b) => (a.timestamp || 0) -
(b.timestamp || 0))` faithfully. -/
def sortByKey {α : Type} (key : α → Int) : List α → List α
  | [] => []
  | x :: xs => insertByKey key x (sortByKey key xs)

def sortEntries (entries : List DiaryEntry) : List DiaryEntry :=
  sortByKey entryKey entries

/-! ## Helper lemmas -/

theorem dropWhile_head_not {p : Char → Bool} :
    ∀ (l : List Char) {c cs}, l.dropWhile p = c :: cs → p c = false := by
  intro l
  induction l with
  | nil => intro c cs h; simp [List.dropWhile] at h
  | cons a t ih =>
    intro c cs h
    rw [List.dropWhile_cons] at h
    by_cases hp : p a = true
    · rw [if_pos hp] at h
      exact ih h
    · rw [if_neg hp] at h
      cases h
      simpa using hp

/-- In every single branch of the refresh path, either an error is thrown and
the cache cell is untouched, or the response carried a non-empty token that is
stored with its lifetime and returned. -/
theorem refreshAccessToken_cases (cfg : WxConfig) (now : Int) (cached : Option CachedToken)
    (net : Except String TokenResp) :
    ((∃ e, (refreshAccessToken cfg now cached net).result = .error e) ∧
      (refreshAccessToken cfg now cached net).cache = cached ∧
      ((refreshAccessToken cfg now cached net).networkCalled = true ∨
        cfg.appId = "" ∨ cfg.secret = "")) ∨
    (∃ d t, net = .ok d ∧ d.access_token = some t ∧ t ≠ "" ∧
      refreshAccessToken cfg now cached net =
        ⟨.ok t, some ⟨t, now + (d.expires_in.getD 7200) * 1000⟩, true⟩) := by
  by_cases hcfg : cfg.appId = "" ∨ cfg.secret = ""
  · have he : refreshAccessToken cfg now cached net =
        ⟨.error ("未配置微信 AppID/Secret"), cached, false⟩ := by
      unfold refreshAccessToken
      rw [if_pos hcfg]
    rw [he]
    exact .inl ⟨⟨_, rfl⟩, rfl, .inr hcfg⟩
  · cases net with
    | error e =>
      have he : refreshAccessToken cfg now cached (.error e) = ⟨.error e, cached, true⟩ := by
        unfold refreshAccessToken
        rw [if_neg hcfg]
      rw [he]
      exact .inl ⟨⟨e, rfl⟩, rfl, .inl rfl⟩
    | ok d =>
      cases hat : d.access_token with
      | none =>
        have he : refreshAccessToken cfg now cached (.ok d) =
            ⟨.error (tokenErrMsg d), cached, true⟩ := by
          unfold refreshAccessToken
          rw [if_neg hcfg]
          simp only [hat]
        rw [he]
        exact .inl ⟨⟨_, rfl⟩, rfl, .inl rfl⟩
      | some t =>
        by_cases herr : (truthyErrcode d.errcode || t == "") = true
        · have he : refreshAccessToken cfg now cached (.ok d) =
              ⟨.error (tokenErrMsg d), cached, true⟩ := by
            unfold refreshAccessToken
            rw [if_neg hcfg]
            simp only [hat]
            rw [if_pos herr]
          rw [he]
          exact .inl ⟨⟨_, rfl⟩, rfl, .inl rfl⟩
        · have he : refreshAccessToken cfg now cached (.ok d) =
              ⟨.ok t, some ⟨t, now + (d.expires_in.getD 7200) * 1000⟩, true⟩ := by
            unfold refreshAccessToken
            rw [if_neg hcfg]
            simp only [hat]
            rw [if_neg herr]
          rw [he]
          refine .inr ⟨d, t, rfl, hat, ?_, rfl⟩
          intro ht
          subst ht
          simp at herr

/-! ## C8: the completion client's empty-response rule -/

/-- C8: `callDeepSeek` extracts the first choice's trimmed message content;
absent or empty (including whitespace-only) content fails with the
empty-response error instead of succeeding, so a successful return is always
non-empty. -/
theorem callDeepSeek_empty_content_rule :
    (∀ r s, callDeepSeek r = .ok s → s ≠ "") ∧
    (∀ d s, callDeepSeek (.ok d) = .ok s → s = chatContent d) ∧
    (∀ d, chatContent d = "" → callDeepSeek (.ok d) = .error ("DeepSeek 返回内容为空")) := by
  have hunf : ∀ d, callDeepSeek (.ok d) =
      if chatContent d = "" then .error ("DeepSeek 返回内容为空") else .ok (chatContent d) :=
    fun d => rfl
  refine ⟨?_, ?_, ?_⟩
  · intro r s h
    cases r with
    | error e => simp [callDeepSeek] at h
    | ok d =>
      rw [hunf] at h
      by_cases hc : chatContent d = ""
      · rw [if_pos hc] at h
        cases h
      · rw [if_neg hc] at h
        cases h
        exact hc
  · intro d s h
    rw [hunf] at h
    by_cases hc : chatContent d = ""
    · rw [if_pos hc] at h
      cases h
    · rw [if_neg hc] at h
      cases h
      rfl
  · intro d h
    rw [hunf, if_pos h]

theorem callDeepSeek_empty_content_rule_witness :
    (("hi" : String) ≠ "") ∧
    (("hi" : String) = chatContent ⟨some [⟨some ⟨some (" hi ")⟩⟩]⟩) ∧
    callDeepSeek (.ok ⟨some []⟩) = .error ("DeepSeek 返回内容为空") :=
  ⟨callDeepSeek_empty_content_rule.1 (.ok ⟨some [⟨some ⟨some (" hi ")⟩⟩]⟩) ("hi") rfl,
   callDeepSeek_empty_content_rule.2.1 ⟨some [⟨some ⟨some (" hi ")⟩⟩]⟩ ("hi") rfl,
   callDeepSeek_empty_content_rule.2.2 ⟨some []⟩ rfl⟩

/-! ## C10: goal-decomposition step shaping -/

/-- C10: the blank-line filter runs before enumeration-marker stripping, so a
line consisting only of marker characters (here the line between the two
steps, consisting of a digit and a dot) survives the filter and is stripped to
the empty string; and no returned step starts with a character of the marker
class. -/
theorem splitSteps_blank_and_stripped :
    splitSteps ("第一步\n1.\n第二步") = [("第一步"), "", ("第二步")] ∧
    ∀ raw s, s ∈ splitSteps raw → ∀ c cs, s.data = c :: cs → isEnumChar c = false := by
  refine ⟨rfl, ?_⟩
  intro raw s hs c cs hdata
  rcases List.mem_map.1 hs with ⟨t, _, rfl⟩
  exact dropWhile_head_not t.data hdata

theorem splitSteps_blank_and_stripped_witness :
    (("x" : String) ∈ splitSteps ("ab\n1.x")) ∧ isEnumChar 'x' = false :=
  ⟨by decide, splitSteps_blank_and_stripped.2 ("ab\n1.x") ("x") (by decide) 'x' [] rfl⟩

/-! ## C6: the 60-second expiry window of the credential cache -/

/-- C6: a cached credential with strictly more than 60 seconds of remaining
lifetime is returned immediately, unchanged, with no network call; a cached
credential within 60 seconds of expiry is never served from the cache — the
call either returns a token taken from the refresh response (with a network
call) or throws. -/
theorem getAccessToken_sixty_second_window :
    (∀ cfg now c net, now + 60000 < c.expireAt →
      getAccessToken cfg now (some c) net = ⟨.ok c.token, some c, false⟩) ∧
    (∀ cfg now c net, c.expireAt ≤ now + 60000 →
      (∃ e, (getAccessToken cfg now (some c) net).result = .error e) ∨
      (∃ d t, net = .ok d ∧ d.access_token = some t ∧
        (getAccessToken cfg now (some c) net).result = .ok t ∧
        (getAccessToken cfg now (some c) net).networkCalled = true)) := by
  have hsome : ∀ cfg now c net, getAccessToken cfg now (some c) net =
      if now + 60000 < c.expireAt then ⟨.ok c.token, some c, false⟩
      else refreshAccessToken cfg now (some c) net := fun _ _ _ _ => rfl
  constructor
  · intro cfg now c net h
    rw [hsome, if_pos h]
  · intro cfg now c net h
    have hn : ¬(now + 60000 < c.expireAt) := by omega
    have he : getAccessToken cfg now (some c) net = refreshAccessToken cfg now (some c) net := by
      rw [hsome, if_neg hn]
    rw [he]
    rcases refreshAccessToken_cases cfg now (some c) net with ⟨⟨e, hr⟩, _, _⟩ | ⟨d, t, hnet, hat, _, hr⟩
    · exact .inl ⟨e, hr⟩
    · exact .inr ⟨d, t, hnet, hat, by rw [hr], by rw [hr]⟩

theorem getAccessToken_sixty_second_window_witness :
    getAccessToken ⟨("a"), ("s")⟩ 0 (some ⟨("live"), 100000⟩) (.ok {}) =
      ⟨.ok ("live"), some ⟨("live"), 100000⟩, false⟩ ∧
    ((∃ e, (getAccessToken ⟨("a"), ("s")⟩ 0 (some ⟨("old"), 0⟩)
        (.ok { access_token := some ("new") })).result = .error e) ∨
      (∃ d t, (Except.ok { access_token := some ("new") } : Except String TokenResp) = .ok d ∧
        d.access_token = some t ∧
        (getAccessToken ⟨("a"), ("s")⟩ 0 (some ⟨("old"), 0⟩)
          (.ok { access_token := some ("new") })).result = .ok t ∧
        (getAccessToken ⟨("a"), ("s")⟩ 0 (some ⟨("old"), 0⟩)
          (.ok { access_token := some ("new") })).networkCalled = true)) :=
  ⟨getAccessToken_sixty_second_window.1 ⟨("a"), ("s")⟩ 0 ⟨("live"), 100000⟩ (.ok {}) (by decide),
   getAccessToken_sixty_second_window.2 ⟨("a"), ("s")⟩ 0 ⟨("old"), 0⟩
     (.ok { access_token := some ("new") }) (by decide)⟩

/-! ## C7: refresh atomicity of the credential cache -/

/-- C7: whenever `getAccessToken` throws — missing configuration, transport
failure, provider error code, or absent/empty token — the cache cell is left
exactly as it was; and whenever the refresh path succeeds, what is stored and
returned is the response's token, which is non-empty, with its computed
expiry — never a partial credential. -/
theorem getAccessToken_refresh_atomic :
    (∀ cfg now cached net e, (getAccessToken cfg now cached net).result = .error e →
      (getAccessToken cfg now cached net).cache = cached) ∧
    (∀ cfg now cached net t, (refreshAccessToken cfg now cached net).result = .ok t →
      t ≠ "" ∧ ∃ d, net = .ok d ∧
        (refreshAccessToken cfg now cached net).cache =
          some ⟨t, now + (d.expires_in.getD 7200) * 1000⟩) := by
  have hsome : ∀ cfg now c net, getAccessToken cfg now (some c) net =
      if now + 60000 < c.expireAt then ⟨.ok c.token, some c, false⟩
      else refreshAccessToken cfg now (some c) net := fun _ _ _ _ => rfl
  constructor
  · intro cfg now cached net e h
    cases cached with
    | some c =>
      by_cases hfresh : now + 60000 < c.expireAt
      · rw [hsome, if_pos hfresh]
      · have he : getAccessToken cfg now (some c) net =
            refreshAccessToken cfg now (some c) net := by
          rw [hsome, if_neg hfresh]
        rw [he]
        rcases refreshAccessToken_cases cfg now (some c) net with ⟨_, hc, _⟩ | ⟨d, t, _, _, _, hr⟩
        · exact hc
        · rw [he] at h
          rw [hr] at h
          cases h
    | none =>
      have he : getAccessToken cfg now none net = refreshAccessToken cfg now none net := rfl
      rw [he]
      rcases refreshAccessToken_cases cfg now none net with ⟨_, hc, _⟩ | ⟨d, t, _, _, _, hr⟩
      · exact hc
      · rw [he] at h
        rw [hr] at h
        cases h
  · intro cfg now cached net t h
    rcases refreshAccessToken_cases cfg now cached net with ⟨⟨e, hr⟩, _, _⟩ | ⟨d, t', hnet, _, hne, hr⟩
    · rw [hr] at h
      cases h
    · rw [hr] at h
      cases h
      exact ⟨hne, d, hnet, by rw [hr]⟩

theorem getAccessToken_refresh_atomic_witness :
    (getAccessToken ⟨"", ""⟩ 0 none (.ok {})).cache = none ∧
    (("new" : String) ≠ "" ∧ ∃ d, (Except.ok { access_token := some ("new"), expires_in := some 10 } :
        Except String TokenResp) = .ok d ∧
      (refreshAccessToken ⟨("a"), ("s")⟩ 0 none
          (.ok { access_token := some ("new"), expires_in := some 10 })).cache =
        some ⟨("new"), 0 + (d.expires_in.getD 7200) * 1000⟩) :=
  ⟨getAccessToken_refresh_atomic.1 ⟨"", ""⟩ 0 none (.ok {}) ("未配置微信 AppID/Secret") rfl,
   getAccessToken_refresh_atomic.2 ⟨("a"), ("s")⟩ 0 none
     (.ok { access_token := some ("new"), expires_in := some 10 }) ("new") rfl⟩

/-! ## C1: no single-flight coalescing in the credential cache -/

/-- C1 counterexample: two concurrent callers that both check the absent/
expired cache before either refresh completes are both placed in flight
(two simultaneous in-flight refreshes after the two checks), and the full
run observes two refresh network calls, not one. -/
theorem getAccessToken_two_concurrent_refreshes :
    (execSched 0 [0, 1] (⟨none, 0⟩, [CallerPhase.ready, CallerPhase.ready])).2 =
      [CallerPhase.awaiting, CallerPhase.awaiting] ∧
    (execSched 0 [0, 1, 0, 1] (⟨none, 0⟩, [CallerPhase.ready, CallerPhase.ready])).1.calls = 2 :=
  ⟨rfl, rfl⟩

/-- Advancing the caller at index `pre.length` rewrites exactly that slot. -/
theorem schedStep_at (now : Int) (st : RefreshSt) (pre : List CallerPhase) (p : CallerPhase)
    (rest : List CallerPhase) :
    schedStep now (st, pre ++ p :: rest) pre.length =
      ((stepCaller now st p).1, pre ++ ((stepCaller now st p).2 :: rest)) := by
  unfold schedStep
  have hget : (pre ++ p :: rest)[pre.length]? = some p := by
    rw [List.getElem?_append_right (Nat.le_refl _)]
    simp
  rw [hget]
  show ((stepCaller now st p).1, (pre ++ p :: rest).set pre.length (stepCaller now st p).2) = _
  have hset : (pre ++ p :: rest).set pre.length (stepCaller now st p).2 =
      pre ++ ((stepCaller now st p).2 :: rest) := by
    rw [List.set_append_right _ _ (Nat.le_refl _)]
    simp
  rw [hset]

/-- Running the check steps of `n` callers over an absent cache puts every
caller in flight and issues one network call each. -/
theorem execSched_ready_phase (now : Int) :
    ∀ (n : Nat) (calls : Nat) (rest : List CallerPhase),
      execSched now (List.range n) (⟨none, calls⟩, List.replicate n CallerPhase.ready ++ rest) =
        (⟨none, calls + n⟩, List.replicate n CallerPhase.awaiting ++ rest) := by
  intro n
  induction n with
  | zero =>
    intro calls rest
    simp [execSched]
  | succ n ih =>
    intro calls rest
    have hrep : List.replicate (n + 1) CallerPhase.ready ++ rest =
        List.replicate n CallerPhase.ready ++ (CallerPhase.ready :: rest) := by
      rw [List.replicate_succ']
      simp [List.append_assoc]
    unfold execSched
    rw [List.range_succ, List.foldl_append, hrep]
    have ih' := ih calls (CallerPhase.ready :: rest)
    unfold execSched at ih'
    rw [ih']
    have hstep := schedStep_at now ⟨none, calls + n⟩ (List.replicate n CallerPhase.awaiting)
      CallerPhase.ready rest
    have hsc : stepCaller now ⟨none, calls + n⟩ CallerPhase.ready =
        (⟨none, calls + n + 1⟩, CallerPhase.awaiting) := rfl
    rw [hsc] at hstep
    simp only [List.length_replicate] at hstep
    show schedStep now
      ((⟨none, calls + n⟩ : RefreshSt), List.replicate n CallerPhase.awaiting ++
        CallerPhase.ready :: rest) n = _
    rw [hstep]
    have hlist : List.replicate (n + 1) CallerPhase.awaiting ++ rest =
        List.replicate n CallerPhase.awaiting ++ (CallerPhase.awaiting :: rest) := by
      rw [List.replicate_succ']
      simp [List.append_assoc]
    rw [hlist]
    rfl

/-- Once no caller is still at its check step, no further network calls
happen (responses only complete the already-issued refreshes). -/
theorem execSched_no_ready (now : Int) :
    ∀ (sched : List Nat) (st : RefreshSt) (phases : List CallerPhase),
      (∀ p ∈ phases, p ≠ CallerPhase.ready) →
      (execSched now sched (st, phases)).1.calls = st.calls := by
  intro sched
  induction sched with
  | nil =>
    intro st phases _
    rfl
  | cons i tl ih =>
    intro st phases h
    show (execSched now tl (schedStep now (st, phases) i)).1.calls = st.calls
    cases hget : phases[i]? with
    | none =>
      have hs : schedStep now (st, phases) i = (st, phases) := by
        unfold schedStep
        rw [hget]
      rw [hs]
      exact ih st phases h
    | some p =>
      have hp := h p (List.getElem?_mem hget)
      cases p with
      | ready => exact absurd rfl hp
      | awaiting =>
        have hs : schedStep now (st, phases) i =
            (⟨some ⟨("tok"), now + 7200 * 1000⟩, st.calls⟩,
              phases.set i (CallerPhase.finished ("tok"))) := by
          unfold schedStep
          rw [hget]
          rfl
        rw [hs]
        refine ih _ _ ?_
        intro q hq
        rcases List.mem_or_eq_of_mem_set hq with hq' | rfl
        · exact h q hq'
        · exact fun hcon => CallerPhase.noConfusion hcon
      | finished t =>
        have hs : schedStep now (st, phases) i =
            (st, phases.set i (CallerPhase.finished t)) := by
          unfold schedStep
          rw [hget]
          rfl
        rw [hs]
        refine ih _ _ ?_
        intro q hq
        rcases List.mem_or_eq_of_mem_set hq with hq' | rfl
        · exact h q hq'
        · exact fun hcon => CallerPhase.noConfusion hcon

/-- C1 amended: the cache performs no refresh coalescing.  Each caller that
observes the absent/expired credential at its check issues its own refresh
call: with `n` concurrent callers all checking before any refresh completes,
exactly `n` refresh network calls are observed (callers checking only after a
refresh has completed do share the stored credential). -/
theorem getAccessToken_concurrent_refresh_count (n : Nat) :
    (execSched 0 (List.range n ++ List.range n)
        (⟨none, 0⟩, List.replicate n CallerPhase.ready)).1.calls = n := by
  unfold execSched
  rw [List.foldl_append]
  have h1 := execSched_ready_phase 0 n 0 []
  simp only [List.append_nil] at h1
  unfold execSched at h1
  rw [h1]
  have h2 := execSched_no_ready 0 (List.range n) ⟨none, 0 + n⟩
    (List.replicate n CallerPhase.awaiting)
    (by
      intro p hp
      rw [List.eq_of_mem_replicate hp]
      exact fun hcon => CallerPhase.noConfusion hcon)
  unfold execSched at h2
  rw [h2]
  show 0 + n = n
  omega

/-! ## C2, C3, C5: the structured-output extractor -/

theorem finalizeDiary_fields_present (raw : String) (p : DiaryParsed) :
    (getField (finalizeDiary raw p) ("diary")).isSome ∧
    (getField (finalizeDiary raw p) ("keyPoints")).isSome ∧
    (getField (finalizeDiary raw p) ("insights")).isSome := by
  refine ⟨?_, ?_, ?_⟩ <;> simp [finalizeDiary, getField]

theorem longTermFallback_fields_present (raw : String) :
    (getField (longTermFallback raw) ("summary")).isSome ∧
    (getField (longTermFallback raw) ("psychologicalInsight")).isSome ∧
    (getField (longTermFallback raw) ("lifeAdvice")).isSome ∧
    (getField (longTermFallback raw) ("metrics")).isSome := by
  refine ⟨?_, ?_, ?_, ?_⟩ <;> simp [longTermFallback, getField]

theorem firstBraceSpan_eq_none {raw : String} (h : ∀ c ∈ raw.data, c ≠ '{') :
    firstBraceSpan raw = none := by
  have hf : raw.data.findIdx? (fun c => c = '{') = none := by
    rw [List.findIdx?_eq_none_iff]
    intro x hx
    simp [h x hx]
  unfold firstBraceSpan
  rw [hf]

/-- C2 counterexample: the model text consisting of the two brace characters
parses as the empty JSON object, which the long-horizon route returns as-is —
the record handed to the caller has none of `summary`, `psychologicalInsight`,
`lifeAdvice`, `metrics`. -/
theorem longTermExtract_empty_object_counterexample :
    longTermExtract ("\x7b\x7d") = Json.obj [] ∧
    getField (longTermExtract ("\x7b\x7d")) ("summary") = none ∧
    getField (longTermExtract ("\x7b\x7d")) ("psychologicalInsight") = none ∧
    getField (longTermExtract ("\x7b\x7d")) ("lifeAdvice") = none ∧
    getField (longTermExtract ("\x7b\x7d")) ("metrics") = none :=
  ⟨rfl, rfl, rfl, rfl, rfl⟩

/-- C2 amended: extraction is total and the diary record always carries all
three fields; the long-horizon record is shape-complete only on the fallback
path (no brace span, or the span fails to parse) — a successfully parsed span
is returned as-is and may lack required fields. -/
theorem extraction_totality_and_shape :
    ∀ raw,
      ((getField (diaryExtract raw) ("diary")).isSome ∧
        (getField (diaryExtract raw) ("keyPoints")).isSome ∧
        (getField (diaryExtract raw) ("insights")).isSome) ∧
      ((∃ span j, firstBraceSpan raw = some span ∧ Json.parse span = some j ∧
          longTermExtract raw = j) ∨
        (longTermExtract raw = longTermFallback raw ∧
          (getField (longTermExtract raw) ("summary")).isSome ∧
          (getField (longTermExtract raw) ("psychologicalInsight")).isSome ∧
          (getField (longTermExtract raw) ("lifeAdvice")).isSome ∧
          (getField (longTermExtract raw) ("metrics")).isSome)) := by
  intro raw
  constructor
  · exact finalizeDiary_fields_present raw (diaryParsedOf raw)
  · cases hspan : firstBraceSpan raw with
    | none =>
      have he : longTermExtract raw = longTermFallback raw := by
        unfold longTermExtract
        rw [hspan]
      rw [he]
      exact .inr ⟨rfl, longTermFallback_fields_present raw⟩
    | some span =>
      cases hparse : Json.parse span with
      | none =>
        have he : longTermExtract raw = longTermFallback raw := by
          simp only [longTermExtract, hspan, hparse]
        rw [he]
        exact .inr ⟨rfl, longTermFallback_fields_present raw⟩
      | some j =>
        refine .inl ⟨span, j, rfl, hparse, ?_⟩
        simp only [longTermExtract, hspan, hparse]

/-- C3: the exact object with only a `diary` field yields that diary with the
two other fields defaulted to the empty string; and raw text containing no
opening brace (in particular plain prose with neither JSON nor headers) is
passed through whole into `diary`, with empty `keyPoints`/`insights`. -/
theorem diaryExtract_missing_fields_and_prose :
    diaryExtract ("\x7b\"diary\":\"x\"\x7d") =
      Json.obj [(("diary"), .str ("x")), (("keyPoints"), .str ("")),
        (("insights"), .str (""))] ∧
    (∀ raw, (∀ c ∈ raw.data, c ≠ '{') →
      diaryExtract raw =
        Json.obj [(("diary"), .str raw), (("keyPoints"), .str ("")),
          (("insights"), .str (""))]) := by
  refine ⟨rfl, ?_⟩
  intro raw h
  have hp : diaryParsedOf raw = initParsed raw := by
    unfold diaryParsedOf
    rw [firstBraceSpan_eq_none h]
  unfold diaryExtract
  rw [hp]
  unfold finalizeDiary initParsed
  simp

theorem diaryExtract_missing_fields_and_prose_witness :
    diaryExtract ("今天天气很好") =
      Json.obj [(("diary"), .str ("今天天气很好")), (("keyPoints"), .str ("")),
        (("insights"), .str (""))] :=
  diaryExtract_missing_fields_and_prose.2 ("今天天气很好") (by decide)

/-- C5 amended: the header decomposition runs exactly when a brace span exists
but fails to parse as JSON; when the raw text has no brace span at all, the
whole parse/decomposition block is skipped and the defaults pass through. -/
theorem diaryExtract_header_decomposition_guard :
    (∀ raw, firstBraceSpan raw = none →
      diaryExtract raw = finalizeDiary raw (initParsed raw)) ∧
    (∀ raw span, firstBraceSpan raw = some span → Json.parse span = none →
      diaryExtract raw = finalizeDiary raw (applyHeaderFields raw (initParsed raw))) := by
  constructor
  · intro raw h
    unfold diaryExtract diaryParsedOf
    rw [h]
  · intro raw span h1 h2
    unfold diaryExtract
    simp only [diaryParsedOf, h1, h2]

theorem diaryExtract_header_decomposition_guard_witness :
    diaryExtract ("日记：今天") = finalizeDiary ("日记：今天") (initParsed ("日记：今天")) ∧
    diaryExtract ("\x7b日记：今天\x7d") =
      finalizeDiary ("\x7b日记：今天\x7d")
        (applyHeaderFields ("\x7b日记：今天\x7d") (initParsed ("\x7b日记：今天\x7d"))) :=
  ⟨diaryExtract_header_decomposition_guard.1 ("日记：今天") rfl,
   diaryExtract_header_decomposition_guard.2 ("\x7b日记：今天\x7d") ("\x7b日记：今天\x7d") rfl rfl⟩

/-- C5 counterexample: raw text with all three recognizable section headers
but no brace-like span — the decomposition is not attempted (the whole raw
text passes through into `diary`), although applying the catch-block regexes
would have produced the decomposed record. -/
theorem diaryExtract_no_span_skips_headers :
    firstBraceSpan ("日记：今天 要点：明天 洞察：后天") = none ∧
    diaryExtract ("日记：今天 要点：明天 洞察：后天") =
      Json.obj [(("diary"), .str ("日记：今天 要点：明天 洞察：后天")),
        (("keyPoints"), .str ("")), (("insights"), .str (""))] ∧
    finalizeDiary ("日记：今天 要点：明天 洞察：后天")
        (applyHeaderFields ("日记：今天 要点：明天 洞察：后天")
          (initParsed ("日记：今天 要点：明天 洞察：后天"))) =
      Json.obj [(("diary"), .str ("今天")), (("keyPoints"), .str ("明天")),
        (("insights"), .str ("后天"))] :=
  ⟨rfl, rfl, rfl⟩

/-! ## C9: stable ascending sort of diary entries -/

theorem mem_insertByKey {α : Type} (key : α → Int) (x : α) :
    ∀ (l : List α) (z : α), z ∈ insertByKey key x l ↔ z = x ∨ z ∈ l := by
  intro l
  induction l with
  | nil =>
    intro z
    simp [insertByKey]
  | cons y ys ih =>
    intro z
    unfold insertByKey
    by_cases hlt : key y < key x
    · rw [if_pos hlt]
      simp only [List.mem_cons, ih]
      tauto
    · rw [if_neg hlt]
      simp only [List.mem_cons]

theorem pairwise_insertByKey {α : Type} (key : α → Int) (x : α) :
    ∀ (l : List α), l.Pairwise (fun a b => key a ≤ key b) →
      (insertByKey key x l).Pairwise (fun a b => key a ≤ key b) := by
  intro l
  induction l with
  | nil =>
    intro _
    simp [insertByKey]
  | cons y ys ih =>
    intro hp
    rw [List.pairwise_cons] at hp
    unfold insertByKey
    by_cases hlt : key y < key x
    · rw [if_pos hlt]
      rw [List.pairwise_cons]
      constructor
      · intro z hz
        rcases (mem_insertByKey key x ys z).1 hz with rfl | hz'
        · exact Int.le_of_lt hlt
        · exact hp.1 z hz'
      · exact ih hp.2
    · rw [if_neg hlt]
      rw [List.pairwise_cons]
      constructor
      · intro z hz
        rcases List.mem_cons.1 hz with rfl | hz'
        · exact Int.not_lt.1 hlt
        · exact Int.le_trans (Int.not_lt.1 hlt) (hp.1 z hz')
      · rw [List.pairwise_cons]
        exact hp

theorem filter_insertByKey {α : Type} (key : α → Int) (k : Int) (x : α) :
    ∀ (l : List α),
      (insertByKey key x l).filter (fun e => key e == k) =
        if key x == k then x :: l.filter (fun e => key e == k)
        else l.filter (fun e => key e == k) := by
  intro l
  induction l with
  | nil =>
    show List.filter (fun e => key e == k) [x] = _
    rw [List.filter_cons]
  | cons y ys ih =>
    unfold insertByKey
    by_cases hlt : key y < key x
    · rw [if_pos hlt]
      rw [List.filter_cons, List.filter_cons, ih]
      by_cases hx : (key x == k) = true
      · have hy : (key y == k) = false := by
          rw [beq_iff_eq] at hx
          rw [beq_eq_false_iff_ne]
          intro hyk
          rw [hyk, hx] at hlt
          exact lt_irrefl k hlt
        simp [hx, hy]
      · simp [hx]
    · rw [if_neg hlt, List.filter_cons]

theorem filter_sortByKey {α : Type} (key : α → Int) (k : Int) :
    ∀ (l : List α),
      (sortByKey key l).filter (fun e => key e == k) = l.filter (fun e => key e == k) := by
  intro l
  induction l with
  | nil => rfl
  | cons x xs ih =>
    show (insertByKey key x (sortByKey key xs)).filter (fun e => key e == k) = _
    rw [filter_insertByKey, ih, List.filter_cons]

/-- C9: the diary route's `entries.sort((a, b) => (a.timestamp || 0) -
(b.timestamp || 0))` orders entries by timestamp ascending (absent timestamps
as zero) before serialization, is stable — for every key the equal-key
entries appear exactly in their input order — and in particular sends the
claim's example `[ts 5, ts 1, ts 5]` to `[ts 1, ts 5, ts 5]` keeping the two
`ts 5` entries in input order. -/
theorem sortEntries_ascending_stable :
    sortEntries [⟨("a"), ("t"), some 5⟩, ⟨("b"), ("t"), some 1⟩, ⟨("c"), ("t"), some 5⟩] =
      [⟨("b"), ("t"), some 1⟩, ⟨("a"), ("t"), some 5⟩, ⟨("c"), ("t"), some 5⟩] ∧
    (∀ l, (sortEntries l).Pairwise (fun a b => entryKey a ≤ entryKey b)) ∧
    (∀ (k : Int) (l : List DiaryEntry),
      (sortEntries l).filter (fun e => entryKey e == k) =
        l.filter (fun e => entryKey e == k)) := by
  refine ⟨rfl, ?_, ?_⟩
  · intro l
    induction l with
    | nil => simp [sortEntries, sortByKey]
    | cons x xs ih =>
      show (insertByKey entryKey x (sortByKey entryKey xs)).Pairwise _
      exact pairwise_insertByKey entryKey x _ ih
  · intro k l
    exact filter_sortByKey entryKey k l

/-! ## C4: round-trip of the diary serialization through the extractor -/

theorem hexVal_hexDigitChar (m : Nat) (h : m < 16) : hexVal (hexDigitChar m) = some m := by
  interval_cases m <;> decide

theorem skipWs_cons_of (c : Char) (l : List Char) (h : isJsonWs c = false) :
    skipWs (c :: l) = c :: l := by
  simp [skipWs, List.dropWhile_cons, h]

/-- Decoding inverts `JSON.stringify` quoting: parsing an escaped string body
followed by the closing quote recovers the original characters exactly. -/
theorem parseStringBody_encodeChars :
    ∀ (s rest : List Char),
      parseStringBody (encodeChars s ++ ('"' :: rest)) = some (s, rest) := by
  intro s
  induction s with
  | nil =>
    intro rest
    rw [parseStringBody.eq_def]
    simp [encodeChars]
  | cons c cs ih =>
    intro rest
    show parseStringBody (escapeChar c ++ encodeChars cs ++ ('"' :: rest)) = some (c :: cs, rest)
    by_cases h1 : c = '"'
    · subst h1
      rw [parseStringBody.eq_def]
      simp [escapeChar, ih, consChar]
    · by_cases h2 : c = '\\'
      · subst h2
        rw [parseStringBody.eq_def]
        simp [escapeChar, ih, consChar]
      · by_cases h3 : c = '\n'
        · subst h3
          rw [parseStringBody.eq_def]
          simp [escapeChar, ih, consChar]
        · by_cases h4 : c = '\r'
          · subst h4
            rw [parseStringBody.eq_def]
            simp [escapeChar, ih, consChar]
          · by_cases h5 : c = '\t'
            · subst h5
              rw [parseStringBody.eq_def]
              simp [escapeChar, ih, consChar]
            · by_cases h6 : c = '\x08'
              · subst h6
                rw [parseStringBody.eq_def]
                simp [escapeChar, ih, consChar]
              · by_cases h7 : c = '\x0C'
                · subst h7
                  rw [parseStringBody.eq_def]
                  simp [escapeChar, ih, consChar]
                · by_cases h8 : c.toNat < 32
                  · have he : escapeChar c =
                        ['\\', 'u', '0', '0', hexDigitChar (c.toNat / 16),
                          hexDigitChar (c.toNat % 16)] := by
                      unfold escapeChar
                      rw [if_neg h1, if_neg h2, if_neg h3, if_neg h4, if_neg h5, if_neg h6,
                        if_neg h7, if_pos h8]
                    rw [he]
                    have hd1 : hexVal (hexDigitChar (c.toNat / 16)) = some (c.toNat / 16) :=
                      hexVal_hexDigitChar _ (by omega)
                    have hd2 : hexVal (hexDigitChar (c.toNat % 16)) = some (c.toNat % 16) :=
                      hexVal_hexDigitChar _ (by omega)
                    have harith1 : c.toNat / 16 * 16 + c.toNat % 16 = c.toNat := by omega
                    have harith2 : 16 * (c.toNat / 16) + c.toNat % 16 = c.toNat := by omega
                    have h0 : hexVal '0' = some 0 := rfl
                    rw [parseStringBody.eq_def]
                    simp [h0, hd1, hd2, harith1, harith2, Char.ofNat_toNat, ih, consChar]
                  · have he : escapeChar c = [c] := by
                      unfold escapeChar
                      rw [if_neg h1, if_neg h2, if_neg h3, if_neg h4, if_neg h5, if_neg h6,
                        if_neg h7, if_neg h8]
                    rw [he]
                    rw [parseStringBody.eq_def]
                    simp [h1, h2, h8, ih, consChar]

theorem parseValue_strLit (f : Nat) (s : String) (rest : List Char) :
    parseValue (f + 1) ('"' :: (encodeChars s.data ++ ('"' :: rest))) = some (.str s, rest) := by
  have hmk : String.mk s.data = s := rfl
  rw [parseValue.eq_def]
  simp [skipWs, isJsonWs, List.dropWhile_cons, parseStringBody_encodeChars, hmk]

set_option maxHeartbeats 1000000 in
/-- Parsing the serialized three-member diary object succeeds and recovers the
three string fields. -/
theorem parseValue_serializeDiary (f : Nat) (d k i : String) (rest : List Char) :
    parseValue (f + 6) ('{' :: (diaryMembersChars d k i ++ ('}' :: rest))) =
      some (Json.obj [(("diary"), .str d), (("keyPoints"), .str k), (("insights"), .str i)],
        rest) := by
  have hmk : ∀ s : String, String.mk s.data = s := fun _ => rfl
  rw [parseValue.eq_def]
  simp [diaryMembersChars, quoteChars, skipWs, isJsonWs, List.dropWhile_cons,
    parseStringBody_encodeChars, parseValue_strLit, parseMembers.eq_def, hmk]

theorem json_parse_serializeDiary (d k i : String) :
    Json.parse (serializeDiary d k i) =
      some (Json.obj [(("diary"), .str d), (("keyPoints"), .str k),
        (("insights"), .str i)]) := by
  have hdata : (serializeDiary d k i).data = '{' :: (diaryMembersChars d k i ++ ['}']) := rfl
  have hlen : (serializeDiary d k i).length = (diaryMembersChars d k i).length + 2 := by
    show ('{' :: (diaryMembersChars d k i ++ ['}'])).length = _
    simp
  have hm : 3 ≤ (diaryMembersChars d k i).length := by
    simp [diaryMembersChars, quoteChars]
    omega
  have hfuel : (serializeDiary d k i).length + 1 =
      ((diaryMembersChars d k i).length - 3) + 6 := by
    rw [hlen]
    omega
  unfold Json.parse
  rw [hdata, hfuel, parseValue_serializeDiary ((diaryMembersChars d k i).length - 3) d k i []]
  simp [skipWs]

theorem firstBraceSpan_serializeDiary (d k i : String) :
    firstBraceSpan (serializeDiary d k i) = some (serializeDiary d k i) := by
  have hdata : (serializeDiary d k i).data = '{' :: (diaryMembersChars d k i ++ ['}']) := rfl
  unfold firstBraceSpan
  rw [hdata]
  have h1 : ('{' :: (diaryMembersChars d k i ++ ['}'])).findIdx? (fun c => c = '{') = some 0 := by
    simp [List.findIdx?_cons]
  have h2 : ('{' :: (diaryMembersChars d k i ++ ['}'])).reverse.findIdx? (fun c => c = '}') =
      some 0 := by
    rw [show ('{' :: (diaryMembersChars d k i ++ ['}'])).reverse =
      '}' :: ((diaryMembersChars d k i).reverse ++ ['{']) by simp]
    simp [List.findIdx?_cons]
  simp only [h1, h2]
  have hlen : ('{' :: (diaryMembersChars d k i ++ ['}'])).length =
      (diaryMembersChars d k i).length + 2 := by
    simp
  rw [hlen]
  have hj : (diaryMembersChars d k i).length + 2 - 1 - 0 =
      (diaryMembersChars d k i).length + 1 := by
    omega
  rw [hj]
  rw [if_pos (by omega : 0 < (diaryMembersChars d k i).length + 1)]
  have htake : (('{' :: (diaryMembersChars d k i ++ ['}'])).drop 0).take
      ((diaryMembersChars d k i).length + 1 - 0 + 1) =
        '{' :: (diaryMembersChars d k i ++ ['}']) := by
    rw [List.drop_zero]
    apply List.take_of_length_le
    simp
  rw [htake]
  rfl

/-- C4 amended: extraction on the exact serialization of a diary-shaped object
recovers every field unchanged whenever `diary` is non-empty (empty
`keyPoints`/`insights` are still recovered exactly, because their defaults
coincide with the empty string). -/
theorem diaryExtract_roundtrip (d k i : String) (hd : d ≠ "") :
    diaryExtract (serializeDiary d k i) =
      Json.obj [(("diary"), .str d), (("keyPoints"), .str k), (("insights"), .str i)] := by
  have hp : diaryParsedOf (serializeDiary d k i) =
      applyJsonFields
        (Json.obj [(("diary"), .str d), (("keyPoints"), .str k), (("insights"), .str i)])
        (initParsed (serializeDiary d k i)) := by
    unfold diaryParsedOf
    simp only [firstBraceSpan_serializeDiary, json_parse_serializeDiary]
  unfold diaryExtract
  rw [hp]
  unfold applyJsonFields initParsed finalizeDiary
  by_cases hk : k = "" <;> by_cases hi2 : i = "" <;>
    simp [getField, truthy, hd, hk, hi2]

theorem diaryExtract_roundtrip_witness :
    (("hello" : String) ≠ "") ∧
    diaryExtract (serializeDiary ("hello") ("") ("i")) =
      Json.obj [(("diary"), .str ("hello")), (("keyPoints"), .str ("")),
        (("insights"), .str ("i"))] :=
  ⟨by decide, diaryExtract_roundtrip ("hello") ("") ("i") (by decide)⟩

/-- C4 counterexample: for the shape-conforming object with an empty `diary`,
extraction of its exact serialization does not recover the object — the
truthiness guard `parsed.diary || raw` drops the empty string and substitutes
the whole raw serialization text. -/
theorem diaryExtract_roundtrip_empty_diary :
    getField (diaryExtract (serializeDiary ("") ("k") ("i"))) ("diary") =
      some (.str (serializeDiary ("") ("k") ("i"))) ∧
    serializeDiary ("") ("k") ("i") ≠ "" ∧
    diaryExtract (serializeDiary ("") ("k") ("i")) ≠
      Json.obj [(("diary"), .str ("")), (("keyPoints"), .str ("k")),
        (("insights"), .str ("i"))] := by
  refine ⟨rfl, by decide, ?_⟩
  intro h
  have hval : diaryExtract (serializeDiary ("") ("k") ("i")) =
      Json.obj [(("diary"), .str (serializeDiary ("") ("k") ("i"))),
        (("keyPoints"), .str ("k")), (("insights"), .str ("i"))] := rfl
  rw [hval] at h
  have h1 := congrArg (fun j => getField j ("diary")) h
  simp [getField] at h1
  exact absurd h1 (by decide)
